import Mathlib

/-!
# A verification development for `go-dirreport`

Shallow embedding of `dirreport.go`: the `DirectoryReport` snapshot, its
construction by `NewDirectoryReport` (a `filepath.Walk` over a directory tree
with the callback `walk`, `handleDir` and `handleFile`) and the comparison of
two snapshots by `Diff`.

Modelling conventions.

* A Go `string` is a Lean `String`.  Go orders strings byte-wise; on UTF-8
  text this is the order of the code-point sequences, which is what
  `strKey` compares.
* A Go `map[string]V` is a `GoMap V`: the list of its entries in the order in
  which a `range` loop visits them, with pairwise distinct keys.  Go leaves
  the iteration order unspecified, so a statement about every `GoMap` is a
  statement about every iteration order.  `Diff` ranges over each of its four
  maps exactly once.
* A Go `error` is an `Option Error` (`none` is `nil`), a `*DirectoryReport`
  result is an `Option DirectoryReport` (`none` is `nil`).
* The file system and the libraries are taken as data: `Env` carries
  `sha256` and `filepath.Rel`, a `Visit` carries what `filepath.Walk` hands to
  the callback for one entry together with the outcome of opening, reading
  and closing that entry.
-/

namespace Dirreport

/-! ## Go maps -/

/-- Go `map[string]V`: `entries` in the order a `range` loop visits them,
keys pairwise distinct. -/
structure GoMap (V : Type) where
  entries : List (String × V)
  nodup : (entries.map Prod.fst).Nodup

namespace GoMap

variable {V : Type}

/-- The empty map literal `map[string]V{}`. -/
def empty : GoMap V :=
  ⟨[], List.nodup_nil⟩

/-- The keys of the map, in iteration order. -/
def keys (m : GoMap V) : List String :=
  m.entries.map Prod.fst

/-- The lookup `v, ok := m[k]`: `some v` when `ok`, `none` otherwise. -/
def get? (m : GoMap V) (k : String) : Option V :=
  m.entries.lookup k

/-- The assignment `m[k] = v`: any entry under `k` is replaced.  The new entry
is placed last in the iteration order (Go does not fix its place). -/
def set (m : GoMap V) (k : String) (v : V) : GoMap V where
  entries := m.entries.filter (fun e => e.1 ≠ k) ++ [(k, v)]
  nodup := by
    rw [List.map_append, List.nodup_append]
    refine ⟨m.nodup.sublist (List.filter_sublist _ |>.map _), by simp, ?_⟩
    intro a ha hb
    simp only [List.map_cons, List.map_nil, List.mem_singleton] at hb
    subst hb
    simp [List.mem_map, List.mem_filter] at ha

end GoMap

/-! ## Strings: order, sorting, hex encoding -/

/-- The code points of a string; Go's `<` on strings is the lexicographic
order of these sequences (byte-wise order of the UTF-8 encoding). -/
def strKey (s : String) : List Nat :=
  s.data.map Char.toNat

/-- Go's `a <= b` on strings. -/
def strLE (a b : String) : Prop :=
  strKey a ≤ strKey b

instance strLE.decidable : DecidableRel strLE :=
  fun a b => inferInstanceAs (Decidable (strKey a ≤ strKey b))

instance strLE.isTotal : IsTotal String strLE :=
  ⟨fun a b => le_total (strKey a) (strKey b)⟩

instance strLE.isTrans : IsTrans String strLE :=
  ⟨fun _ _ _ h1 h2 => le_trans (α := List Nat) h1 h2⟩

/-- A list of strings in ascending lexicographic order. -/
def Ascending (l : List String) : Prop :=
  l.Sorted strLE

instance Ascending.decidable (l : List String) : Decidable (Ascending l) :=
  inferInstanceAs (Decidable (l.Sorted strLE))

/-- Go's `sort.Strings`: rearranges the slice into increasing order.  The
order on strings is total and antisymmetric, so the outcome is the one
ascending permutation of the input whatever algorithm the library runs; it is
computed here by insertion sort. -/
def sortStrings (l : List String) : List String :=
  l.insertionSort strLE

/-- One lowercase hexadecimal digit. -/
def hexDigit (n : Nat) : Char :=
  "0123456789abcdef".data.getD n '0'

/-- Go's `hex.EncodeToString`: two lowercase hex digits per byte. -/
def hexEncodeToString (bytes : List Nat) : String :=
  String.mk (bytes.flatMap (fun b => [hexDigit (b / 16 % 16), hexDigit (b % 16)]))

/-! ## The snapshot -/

/-- A Go `error` value (its message). -/
abbrev Error := String

/-- The struct `DirectoryReport`.  `hasher` is the state of the `hash.Hash`:
the bytes written to it since the last `Reset`. -/
structure DirectoryReport where
  root : String
  Files : GoMap String
  Dirs : GoMap Unit
  hasher : List Nat

/-- The libraries the builder calls: `sha256` maps the bytes written to the
hasher to the digest `Sum(nil)` returns, `Rel root path` is
`filepath.Rel(root, path)`. -/
structure Env where
  sha256 : List Nat → List Nat
  Rel : String → String → Except Error String

/-- The classification of an entry by its `os.FileInfo`: `info.IsDir()`,
`info.Mode().IsRegular()`, or neither (symlink, device, socket, pipe). -/
inductive FileKind where
  | dir
  | regular
  | special
  deriving DecidableEq

/-- One invocation of the walk callback by `filepath.Walk`, with the answers
of the file system for that entry: `err` is the traversal error handed to the
callback, `openErr` the result of `os.Open`, `content` the bytes `io.Copy`
writes to the hasher before it returns `copyErr`, `closeErr` the result of
`f.Close()`. -/
structure Visit where
  path : String
  kind : FileKind
  err : Option Error
  openErr : Option Error
  content : List Nat
  copyErr : Option Error
  closeErr : Option Error

/-- The method `handleDir`. -/
def handleDir (env : Env) (r : DirectoryReport) (v : Visit) :
    DirectoryReport × Option Error :=
  match env.Rel r.root v.path with
  | .error err => (r, some err)
  | .ok relpath => ({ r with Dirs := r.Dirs.set relpath () }, none)

/-- The method `handleFile`. -/
def handleFile (env : Env) (r : DirectoryReport) (v : Visit) :
    DirectoryReport × Option Error :=
  match env.Rel r.root v.path with
  | .error err => (r, some err)
  | .ok relpath =>
    let r1 := { r with hasher := [] }
    match v.openErr with
    | some err => (r1, some err)
    | none =>
      let r2 := { r1 with hasher := r1.hasher ++ v.content }
      match v.closeErr with
      | some errc => (r2, some errc)
      | none =>
        match v.copyErr with
        | some err => (r2, some err)
        | none =>
          ({ r2 with Files := r2.Files.set relpath (hexEncodeToString (env.sha256 r2.hasher)) },
            none)

/-- The method `walk`, the callback handed to `filepath.Walk`. -/
def walk (env : Env) (r : DirectoryReport) (v : Visit) : DirectoryReport × Option Error :=
  match v.err with
  | some err => (r, some err)
  | none =>
    match v.kind with
    | .dir => handleDir env r v
    | .special => (r, none)
    | .regular => handleFile env r v

/-- Go's `filepath.Walk` with callback `fn`.  `visits` is the sequence of
callback invocations the traversal makes as long as the callback returns
`nil`; the first error the callback returns stops the traversal and is the
result of `Walk`.  (The callback of this package returns only errors of the
file system and of `filepath.Rel`, never the sentinel `filepath.SkipDir`.) -/
def Walk {σ : Type} (fn : σ → Visit → σ × Option Error) : List Visit → σ → σ × Option Error
  | [], s => (s, none)
  | v :: vs, s =>
    match fn s v with
    | (s1, some err) => (s1, some err)
    | (s1, none) => Walk fn vs s1

/-- The report `NewDirectoryReport` starts from. -/
def newReport (path : String) : DirectoryReport :=
  { root := path, Files := GoMap.empty, Dirs := GoMap.empty, hasher := [] }

/-- The function `NewDirectoryReport`: the pair `(report, error)` it returns. -/
def NewDirectoryReport (env : Env) (path : String) (visits : List Visit) :
    Option DirectoryReport × Option Error :=
  match Walk (walk env) visits (newReport path) with
  | (_, some err) => (none, some err)
  | (directoryReport, none) => (some directoryReport, none)

/-! ## The comparison -/

/-- The five lists `Diff` returns. -/
structure DiffResult where
  newFiles : List String
  removedFiles : List String
  modifiedFiles : List String
  newDirs : List String
  removedDirs : List String
  deriving DecidableEq

/-- Body of the first loop of `Diff`, over `other.Files`; the accumulator is
`(newFiles, modifiedFiles)`. -/
def diffFilesStep (r : DirectoryReport) (acc : List String × List String)
    (e : String × String) : List String × List String :=
  match r.Files.get? e.1 with
  | none => (acc.1 ++ [e.1], acc.2)
  | some sum => if sum ≠ e.2 then (acc.1, acc.2 ++ [e.1]) else acc

/-- Body of the three loops of `Diff` that collect the keys of one map that
are missing from the map `m`. -/
def diffMissingStep {V W : Type} (m : GoMap V) (acc : List String) (e : String × W) :
    List String :=
  match m.get? e.1 with
  | none => acc ++ [e.1]
  | some _ => acc

/-- The method `Diff`.  The four loops append to the result slices in
iteration order; the last loop calls `sort.Strings` on the slices
`newFiles, removedDirs, modifiedFiles, newDirs, removedDirs`, which sorts the
returned slices in place. -/
def Diff (r other : DirectoryReport) : DiffResult :=
  let fm := other.Files.entries.foldl (diffFilesStep r) ([], [])
  let newFiles := fm.1
  let modifiedFiles := fm.2
  let removedFiles := r.Files.entries.foldl (diffMissingStep other.Files) []
  let newDirs := other.Dirs.entries.foldl (diffMissingStep r.Dirs) []
  let removedDirs := r.Dirs.entries.foldl (diffMissingStep other.Dirs) []
  let newFiles := sortStrings newFiles
  let removedDirs := sortStrings removedDirs
  let modifiedFiles := sortStrings modifiedFiles
  let newDirs := sortStrings newDirs
  let removedDirs := sortStrings removedDirs
  { newFiles := newFiles, removedFiles := removedFiles, modifiedFiles := modifiedFiles,
    newDirs := newDirs, removedDirs := removedDirs }

/-! ## The error of one entry, as the specification words it -/

/-- The error one entry produces, in the words of the specification: the
traversal error handed to the walk callback; otherwise, for a directory, a
failure of the relative-path computation; for a regular file, a failure of the
relative-path computation, of the file open, of the file close or of the file
read; an entry that is neither a directory nor a regular file produces
none. -/
def entryError (env : Env) (root : String) (v : Visit) : Option Error :=
  match v.err with
  | some err => some err
  | none =>
    match v.kind with
    | .special => none
    | .dir =>
      match env.Rel root v.path with
      | .error err => some err
      | .ok _ => none
    | .regular =>
      match env.Rel root v.path with
      | .error err => some err
      | .ok _ => (v.openErr.orElse fun _ => v.closeErr).orElse fun _ => v.copyErr

/-! ## Concrete snapshots and traversals -/

/-- A snapshot with the files `b` and `a` (both empty), whose `Files` map is
iterated in the order `b`, `a`. -/
def unsortedBase : DirectoryReport :=
  { root := "test_old/"
    Files := ⟨[("b", "e3b0c44298fc1c149afbf4c8996fb92427ae41e4649b934ca495991b7852b855"),
               ("a", "e3b0c44298fc1c149afbf4c8996fb92427ae41e4649b934ca495991b7852b855")],
              by decide⟩
    Dirs := ⟨[(".", ())], by decide⟩
    hasher := [] }

/-- The snapshot of a directory without entries. -/
def emptyTree : DirectoryReport :=
  { root := "test_new/"
    Files := GoMap.empty
    Dirs := ⟨[(".", ())], by decide⟩
    hasher := [] }

/-- The snapshot `before` of `ExampleDirectoryReport_Diff`: `file1.txt` holds
`content a`, `file2.txt` holds `content b`. -/
def exampleBefore : DirectoryReport :=
  { root := "test_old/"
    Files := ⟨[("file1.txt", "0069ffe8481777aa403982d9e9b3fa48957015a07cfa0f66dae32050b95bda54"),
               ("file2.txt", "c4363f384691f55ee5a5c315e1f7c37366ae232933665a93fe3bcc0d90bc937b")],
              by decide⟩
    Dirs := ⟨[(".", ())], by decide⟩
    hasher := [] }

/-- The snapshot `after` of `ExampleDirectoryReport_Diff`: `file1.txt` holds
`content c`, `file3.txt` holds `content b`. -/
def exampleAfter : DirectoryReport :=
  { root := "test_new/"
    Files := ⟨[("file1.txt", "3f0b9198a291f77144f6113f3cafff65b90efc8814b8b817b8afb2e7a848a25a"),
               ("file3.txt", "c4363f384691f55ee5a5c315e1f7c37366ae232933665a93fe3bcc0d90bc937b")],
              by decide⟩
    Dirs := ⟨[(".", ())], by decide⟩
    hasher := [] }

/-- The snapshot `before` of `ExampleDirectoryReport_Diff_third`. -/
def thirdBefore : DirectoryReport :=
  { root := "test_old/"
    Files := ⟨[("dir1/file2.txt",
                "c4363f384691f55ee5a5c315e1f7c37366ae232933665a93fe3bcc0d90bc937b"),
               ("dir1/subdir1/file3.txt",
                "3f0b9198a291f77144f6113f3cafff65b90efc8814b8b817b8afb2e7a848a25a"),
               ("dir1/subdir2/file4.txt",
                "477cbb5cdcbcee53048aa3a37de26fa343180fa305f801d19543a135e73ec6f8"),
               ("file1.txt",
                "0069ffe8481777aa403982d9e9b3fa48957015a07cfa0f66dae32050b95bda54")],
              by decide⟩
    Dirs := ⟨[(".", ()), ("dir1", ()), ("dir1/subdir1", ()), ("dir1/subdir2", ())], by decide⟩
    hasher := [] }

/-- The snapshot `after` of `ExampleDirectoryReport_Diff_third`. -/
def thirdAfter : DirectoryReport :=
  { root := "test_new/"
    Files := ⟨[("dir1/file2.txt",
                "c4363f384691f55ee5a5c315e1f7c37366ae232933665a93fe3bcc0d90bc937b"),
               ("dir1/subdir1/file3.txt",
                "29e4473ec9facc5fce46ed701bc9d05f61a3c55d5d58882f28397f06960f5477"),
               ("dir1/subdir3/file4.txt",
                "477cbb5cdcbcee53048aa3a37de26fa343180fa305f801d19543a135e73ec6f8"),
               ("dir1/subdir3/file5.txt",
                "fc9686ed8557e06c272fc3e165fb6a8eb510e0850d9099df1bb60b988ad0a82b"),
               ("file1.txt",
                "0069ffe8481777aa403982d9e9b3fa48957015a07cfa0f66dae32050b95bda54")],
              by decide⟩
    Dirs := ⟨[(".", ()), ("dir1", ()), ("dir1/subdir1", ()), ("dir1/subdir3", ())], by decide⟩
    hasher := [] }

/-- A stand-in for the libraries: the digest of a byte sequence is its length
byte, `Rel` strips the root from a path below it. -/
def stubEnv : Env :=
  { sha256 := fun bytes => [bytes.length % 256]
    Rel := fun root path =>
      if path = root then .ok "."
      else if root.data.isPrefixOf path.data then
        .ok (String.mk (path.data.drop root.data.length))
      else .error "Rel: cannot make path relative" }

/-- The visit of a readable directory. -/
def visitDir (path : String) : Visit :=
  { path := path, kind := .dir, err := none, openErr := none, content := [], copyErr := none,
    closeErr := none }

/-- The visit of a regular file that is read without error. -/
def visitFile (path : String) (content : List Nat) : Visit :=
  { path := path, kind := .regular, err := none, openErr := none, content := content,
    copyErr := none, closeErr := none }

/-- The visit of a regular file that cannot be opened. -/
def visitLocked (path : String) : Visit :=
  { path := path, kind := .regular, err := none, openErr := some "open: permission denied",
    content := [], copyErr := none, closeErr := none }

/-- The visit of a symbolic link. -/
def visitSymlink (path : String) : Visit :=
  { path := path, kind := .special, err := none, openErr := none, content := [], copyErr := none,
    closeErr := none }

/-- The snapshot `unsortedBase` with its `Files` map iterated in the order
`a`, `b`. -/
def sortedBase : DirectoryReport :=
  { root := "test_old/"
    Files := ⟨[("a", "e3b0c44298fc1c149afbf4c8996fb92427ae41e4649b934ca495991b7852b855"),
               ("b", "e3b0c44298fc1c149afbf4c8996fb92427ae41e4649b934ca495991b7852b855")],
              by decide⟩
    Dirs := ⟨[(".", ())], by decide⟩
    hasher := [] }

/-- The snapshot of `test_old/` in `TestModifiedFile`: the file `a` holds `1`. -/
def modifiedOld : DirectoryReport :=
  { root := "test_old/"
    Files := ⟨[("a", "6b86b273ff34fce19d6b804eff5a3f5747ada4eaa22f1d49c01e52ddb7875b4b")],
              by decide⟩
    Dirs := ⟨[(".", ())], by decide⟩
    hasher := [] }

/-- The snapshot of `test_new/` in `TestModifiedFile`: the file `a` holds `2`. -/
def modifiedNew : DirectoryReport :=
  { root := "test_new/"
    Files := ⟨[("a", "d4735e3a265e16eee03f59718b9b5d03019c07d8b6c51f90da3a666eec13ab35")],
              by decide⟩
    Dirs := ⟨[(".", ())], by decide⟩
    hasher := [] }

/-- The snapshot of `test_new/` in `TestNewFile`: the empty file `a`. -/
def newFileTree : DirectoryReport :=
  { root := "test_new/"
    Files := ⟨[("a", "e3b0c44298fc1c149afbf4c8996fb92427ae41e4649b934ca495991b7852b855")],
              by decide⟩
    Dirs := ⟨[(".", ())], by decide⟩
    hasher := [] }

/-! ## Lemmas on maps -/

theorem lookup_eq_none_iff_not_mem_keys {V : Type} (l : List (String × V)) (k : String) :
    l.lookup k = none ↔ k ∉ l.map Prod.fst := by
  induction l with
  | nil => simp
  | cons e t ih =>
    obtain ⟨a, b⟩ := e
    by_cases h : k = a
    · subst h
      simp [List.lookup]
    · have h2 : (k == a) = false := by simpa using h
      simp [List.lookup, h2, ih, h]

theorem lookup_eq_some_of_mem {V : Type} (l : List (String × V)) (k : String) (v : V)
    (hn : (l.map Prod.fst).Nodup) (hm : (k, v) ∈ l) : l.lookup k = some v := by
  induction l with
  | nil => simp at hm
  | cons e t ih =>
    obtain ⟨a, b⟩ := e
    rw [List.map_cons, List.nodup_cons] at hn
    rcases List.mem_cons.mp hm with h | h
    · cases h
      simp [List.lookup]
    · have hne : k ≠ a := by
        rintro rfl
        exact hn.1 (List.mem_map.mpr ⟨(k, v), h, rfl⟩)
      have h2 : (k == a) = false := by simpa using hne
      simp [List.lookup, h2, ih hn.2 h]

theorem mem_of_lookup_eq_some {V : Type} (l : List (String × V)) (k : String) (v : V)
    (h : l.lookup k = some v) : (k, v) ∈ l := by
  induction l with
  | nil => simp at h
  | cons e t ih =>
    obtain ⟨a, b⟩ := e
    by_cases hk : k = a
    · subst hk
      simp [List.lookup] at h
      simp [h]
    · have h2 : (k == a) = false := by simpa using hk
      simp only [List.lookup, h2] at h
      exact List.mem_cons_of_mem _ (ih h)

namespace GoMap

variable {V : Type}

theorem get?_eq_none_iff (m : GoMap V) (k : String) : m.get? k = none ↔ k ∉ m.keys :=
  lookup_eq_none_iff_not_mem_keys m.entries k

theorem get?_eq_some_iff (m : GoMap V) (k : String) (v : V) :
    m.get? k = some v ↔ (k, v) ∈ m.entries :=
  ⟨mem_of_lookup_eq_some m.entries k v, lookup_eq_some_of_mem m.entries k v m.nodup⟩

theorem mem_keys_iff (m : GoMap V) (k : String) : k ∈ m.keys ↔ ∃ v, m.get? k = some v := by
  constructor
  · intro h
    cases hg : m.get? k with
    | none => exact absurd h ((m.get?_eq_none_iff k).mp hg)
    | some v => exact ⟨v, rfl⟩
  · rintro ⟨v, hv⟩
    by_contra hk
    rw [(m.get?_eq_none_iff k).mpr hk] at hv
    cases hv

end GoMap

/-! ## Lemmas on sorting -/

theorem strKey_injective : Function.Injective strKey := by
  intro a b h
  unfold strKey at h
  have hinj : Function.Injective Char.toNat := by
    intro c d hcd
    exact Char.ext (UInt32.ext hcd)
  have := List.map_injective_iff.mpr hinj h
  cases a; cases b; simp_all

theorem sortStrings_perm (l : List String) : (sortStrings l).Perm l :=
  List.perm_insertionSort strLE l

theorem mem_sortStrings (l : List String) (p : String) : p ∈ sortStrings l ↔ p ∈ l :=
  (sortStrings_perm l).mem_iff

theorem sortStrings_ascending (l : List String) : Ascending (sortStrings l) :=
  List.sorted_insertionSort strLE l

theorem sortStrings_nodup (l : List String) (h : l.Nodup) : (sortStrings l).Nodup :=
  (sortStrings_perm l).nodup_iff.mpr h

theorem sortStrings_idem (l : List String) : sortStrings (sortStrings l) = sortStrings l :=
  List.Sorted.insertionSort_eq (sortStrings_ascending l)

/-! ## The loops of `Diff` as filters -/

theorem foldl_diffMissingStep {V W : Type} (m : GoMap V) (l : List (String × W))
    (acc : List String) :
    l.foldl (diffMissingStep m) acc
      = acc ++ (l.map Prod.fst).filter (fun k => (m.get? k).isNone) := by
  induction l generalizing acc with
  | nil => simp
  | cons e t ih =>
    rw [List.foldl_cons, ih]
    cases h : m.get? e.1 <;> simp [diffMissingStep, h, List.filter_cons]

theorem foldl_diffFilesStep_fst (r : DirectoryReport) (l : List (String × String))
    (acc : List String × List String) :
    (l.foldl (diffFilesStep r) acc).1
      = acc.1 ++ (l.map Prod.fst).filter (fun k => (r.Files.get? k).isNone) := by
  induction l generalizing acc with
  | nil => simp
  | cons e t ih =>
    rw [List.foldl_cons, ih]
    cases h : r.Files.get? e.1 with
    | none => simp [diffFilesStep, h, List.filter_cons]
    | some s =>
      by_cases hs : s = e.2 <;> simp [diffFilesStep, h, hs, List.filter_cons]

theorem foldl_diffFilesStep_snd (r : DirectoryReport) (l : List (String × String))
    (acc : List String × List String) :
    (l.foldl (diffFilesStep r) acc).2
      = acc.2 ++ (l.filter (fun e => (r.Files.get? e.1).any (fun s => s != e.2))).map
          Prod.fst := by
  induction l generalizing acc with
  | nil => simp
  | cons e t ih =>
    rw [List.foldl_cons, ih]
    cases h : r.Files.get? e.1 with
    | none => simp [diffFilesStep, h, List.filter_cons]
    | some s =>
      by_cases hs : s = e.2 <;> simp [diffFilesStep, h, hs, List.filter_cons]


/-! ## The five lists of `Diff` in closed form -/

theorem Diff_newFiles (r other : DirectoryReport) :
    (Diff r other).newFiles
      = sortStrings (other.Files.keys.filter (fun k => (r.Files.get? k).isNone)) := by
  simp [Diff, foldl_diffFilesStep_fst, GoMap.keys]

theorem Diff_removedFiles (r other : DirectoryReport) :
    (Diff r other).removedFiles
      = r.Files.keys.filter (fun k => (other.Files.get? k).isNone) := by
  simp [Diff, foldl_diffMissingStep, GoMap.keys]

theorem Diff_modifiedFiles (r other : DirectoryReport) :
    (Diff r other).modifiedFiles
      = sortStrings ((other.Files.entries.filter
          (fun e => (r.Files.get? e.1).any (fun s => s != e.2))).map Prod.fst) := by
  simp [Diff, foldl_diffFilesStep_snd]

theorem Diff_newDirs (r other : DirectoryReport) :
    (Diff r other).newDirs
      = sortStrings (other.Dirs.keys.filter (fun k => (r.Dirs.get? k).isNone)) := by
  simp [Diff, foldl_diffMissingStep, GoMap.keys]

theorem Diff_removedDirs (r other : DirectoryReport) :
    (Diff r other).removedDirs
      = sortStrings (r.Dirs.keys.filter (fun k => (other.Dirs.get? k).isNone)) := by
  simp [Diff, foldl_diffMissingStep, GoMap.keys, sortStrings_idem]

theorem mem_filter_missing {V W : Type} (m : GoMap V) (n : GoMap W) (p : String) :
    p ∈ n.keys.filter (fun k => (m.get? k).isNone) ↔ p ∈ n.keys ∧ p ∉ m.keys := by
  rw [List.mem_filter, Option.isNone_iff_eq_none, GoMap.get?_eq_none_iff]

theorem nodup_filter_missing {V W : Type} (m : GoMap V) (n : GoMap W) :
    (n.keys.filter (fun k => (m.get? k).isNone)).Nodup :=
  n.nodup.filter _

theorem mem_modified (r other : DirectoryReport) (p : String) :
    p ∈ (other.Files.entries.filter
          (fun e => (r.Files.get? e.1).any (fun s => s != e.2))).map Prod.fst
      ↔ ∃ s t, r.Files.get? p = some s ∧ other.Files.get? p = some t ∧ s ≠ t := by
  constructor
  · intro h
    obtain ⟨⟨k, t⟩, he, rfl⟩ := List.mem_map.mp h
    obtain ⟨hmem, hany⟩ := List.mem_filter.mp he
    cases hg : r.Files.get? k with
    | none => simp [hg] at hany
    | some s =>
      simp only [hg, Option.any_some, bne_iff_ne] at hany
      exact ⟨s, t, rfl, (other.Files.get?_eq_some_iff k t).mpr hmem, hany⟩
  · rintro ⟨s, t, hs, ht, hne⟩
    refine List.mem_map.mpr ⟨(p, t), List.mem_filter.mpr ⟨?_, ?_⟩, rfl⟩
    · exact (other.Files.get?_eq_some_iff p t).mp ht
    · simpa [hs] using hne

theorem nodup_modified (r other : DirectoryReport) :
    ((other.Files.entries.filter
          (fun e => (r.Files.get? e.1).any (fun s => s != e.2))).map Prod.fst).Nodup :=
  other.Files.nodup.sublist ((List.filter_sublist _).map _)

theorem mem_Diff_modifiedFiles (r other : DirectoryReport) (p : String) :
    p ∈ (Diff r other).modifiedFiles
      ↔ ∃ s t, r.Files.get? p = some s ∧ other.Files.get? p = some t ∧ s ≠ t := by
  rw [Diff_modifiedFiles, mem_sortStrings, mem_modified]

/-! ## Claims on `Diff` -/

/-- C1: a path occurs in the `newFiles` list of `base.Diff(other)` if and only
if it is a key of `other.Files` and not a key of `base.Files`. -/
theorem diff_newFiles_iff (base other : DirectoryReport) (p : String) :
    p ∈ (Diff base other).newFiles ↔ p ∈ other.Files.keys ∧ p ∉ base.Files.keys := by
  rw [Diff_newFiles, mem_sortStrings, mem_filter_missing]

/-- C2: a path occurs in the `removedFiles` list of `base.Diff(other)` if and
only if it is a key of `base.Files` and not a key of `other.Files`. -/
theorem diff_removedFiles_iff (base other : DirectoryReport) (p : String) :
    p ∈ (Diff base other).removedFiles ↔ p ∈ base.Files.keys ∧ p ∉ other.Files.keys := by
  rw [Diff_removedFiles, mem_filter_missing]

/-- C3: a path occurs in the `modifiedFiles` list of `base.Diff(other)` if and
only if it is a key of both `base.Files` and `other.Files` and the two digests
stored under it are different strings. -/
theorem diff_modifiedFiles_iff (base other : DirectoryReport) (p : String) :
    p ∈ (Diff base other).modifiedFiles
      ↔ ∃ s t, base.Files.get? p = some s ∧ other.Files.get? p = some t ∧ s ≠ t :=
  mem_Diff_modifiedFiles base other p


theorem filter_self_missing {V : Type} (m : GoMap V) :
    m.keys.filter (fun k => (m.get? k).isNone) = [] := by
  rw [List.filter_eq_nil_iff]
  intro k hk
  obtain ⟨v, hv⟩ := (m.mem_keys_iff k).mp hk
  simp [hv]

theorem sortStrings_nil : sortStrings [] = [] := rfl

theorem sortStrings_singleton (a : String) : sortStrings [a] = [a] := rfl

theorem eq_singleton_of_nodup (l : List String) (q : String) (hn : l.Nodup)
    (hm : ∀ x, x ∈ l ↔ x = q) : l = [q] := by
  have hp : l.Perm [q] := by
    rw [List.perm_ext_iff_of_nodup hn (List.nodup_singleton q)]
    intro x
    rw [hm x, List.mem_singleton]
  exact List.perm_singleton.mp hp

/-- C4: the directory lists of `base.Diff(other)` are the two set differences
of the `Dirs` sets, and they stay the same when the `Files` maps of the two
snapshots are replaced by any others. -/
theorem diff_dirs_iff (base other : DirectoryReport) (p : String) :
    (p ∈ (Diff base other).newDirs ↔ p ∈ other.Dirs.keys ∧ p ∉ base.Dirs.keys) ∧
    (p ∈ (Diff base other).removedDirs ↔ p ∈ base.Dirs.keys ∧ p ∉ other.Dirs.keys) ∧
    ∀ f g : GoMap String,
      (Diff { base with Files := f } { other with Files := g }).newDirs
          = (Diff base other).newDirs ∧
      (Diff { base with Files := f } { other with Files := g }).removedDirs
          = (Diff base other).removedDirs := by
  refine ⟨?_, ?_, fun f g => ⟨?_, ?_⟩⟩
  · rw [Diff_newDirs, mem_sortStrings, mem_filter_missing]
  · rw [Diff_removedDirs, mem_sortStrings, mem_filter_missing]
  · rw [Diff_newDirs, Diff_newDirs]
  · rw [Diff_removedDirs, Diff_removedDirs]

/-- C5: at the snapshot `unsortedBase`, whose `Files` map is iterated in the
order `b`, `a`, diffed against a tree without files, `Diff` returns
`removedFiles = [b, a]`, which is not in ascending order: the sorting loop of
`Diff` names `removedDirs` twice and `removedFiles` never. -/
theorem diff_removedFiles_unsorted :
    (Diff unsortedBase emptyTree).removedFiles = ["b", "a"] ∧
    ¬ Ascending (Diff unsortedBase emptyTree).removedFiles := by
  decide

/-- C6: none of the five lists returned by `base.Diff(other)` contains a path
more than once. -/
theorem diff_nodup (base other : DirectoryReport) :
    (Diff base other).newFiles.Nodup ∧ (Diff base other).removedFiles.Nodup ∧
    (Diff base other).modifiedFiles.Nodup ∧ (Diff base other).newDirs.Nodup ∧
    (Diff base other).removedDirs.Nodup := by
  rw [Diff_newFiles, Diff_removedFiles, Diff_modifiedFiles, Diff_newDirs, Diff_removedDirs]
  exact ⟨sortStrings_nodup _ (nodup_filter_missing _ _), nodup_filter_missing _ _,
    sortStrings_nodup _ (nodup_modified _ _), sortStrings_nodup _ (nodup_filter_missing _ _),
    sortStrings_nodup _ (nodup_filter_missing _ _)⟩

/-- C7: diffing a snapshot against itself returns five empty lists. -/
theorem diff_self (r : DirectoryReport) :
    Diff r r = { newFiles := [], removedFiles := [], modifiedFiles := [], newDirs := [],
                 removedDirs := [] } := by
  have hmod : (r.Files.entries.filter
      (fun e => (r.Files.get? e.1).any (fun s => s != e.2))).map Prod.fst = [] := by
    rw [List.map_eq_nil_iff, List.filter_eq_nil_iff]
    rintro ⟨k, t⟩ he
    simp [(r.Files.get?_eq_some_iff k t).mpr he]
  have h1 := Diff_newFiles r r
  have h2 := Diff_removedFiles r r
  have h3 := Diff_modifiedFiles r r
  have h4 := Diff_newDirs r r
  have h5 := Diff_removedDirs r r
  rw [filter_self_missing, sortStrings_nil] at h1 h4 h5
  rw [filter_self_missing] at h2
  rw [hmod, sortStrings_nil] at h3
  cases hd : Diff r r
  simp_all

/-- C8: a path stored under the same digest in both `Files` maps occurs in
none of `newFiles`, `removedFiles`, `modifiedFiles`, and a path in both `Dirs`
sets occurs in neither `newDirs` nor `removedDirs`. -/
theorem diff_unchanged (base other : DirectoryReport) (p : String) :
    (∀ d : String, base.Files.get? p = some d → other.Files.get? p = some d →
      p ∉ (Diff base other).newFiles ∧ p ∉ (Diff base other).removedFiles ∧
      p ∉ (Diff base other).modifiedFiles) ∧
    (p ∈ base.Dirs.keys → p ∈ other.Dirs.keys →
      p ∉ (Diff base other).newDirs ∧ p ∉ (Diff base other).removedDirs) := by
  constructor
  · intro d hb ho
    have hkb : p ∈ base.Files.keys := (base.Files.mem_keys_iff p).mpr ⟨d, hb⟩
    have hko : p ∈ other.Files.keys := (other.Files.mem_keys_iff p).mpr ⟨d, ho⟩
    refine ⟨?_, ?_, ?_⟩
    · rw [Diff_newFiles, mem_sortStrings, mem_filter_missing]
      exact fun h => h.2 hkb
    · rw [Diff_removedFiles, mem_filter_missing]
      exact fun h => h.2 hko
    · rw [Diff_modifiedFiles, mem_sortStrings, mem_modified]
      rintro ⟨s, t, hs, ht, hne⟩
      rw [hb] at hs
      rw [ho] at ht
      cases hs
      cases ht
      exact hne rfl
  · intro hb ho
    constructor
    · rw [Diff_newDirs, mem_sortStrings, mem_filter_missing]
      exact fun h => h.2 hb
    · rw [Diff_removedDirs, mem_sortStrings, mem_filter_missing]
      exact fun h => h.2 ho

/-- Witness of C8 on the snapshots of `ExampleDirectoryReport_Diff_third`:
`file1.txt` and `dir1` are unchanged. -/
theorem diff_unchanged_witness :
    (thirdBefore.Files.get? "file1.txt"
        = some "0069ffe8481777aa403982d9e9b3fa48957015a07cfa0f66dae32050b95bda54" ∧
      thirdAfter.Files.get? "file1.txt"
        = some "0069ffe8481777aa403982d9e9b3fa48957015a07cfa0f66dae32050b95bda54" ∧
      "dir1" ∈ thirdBefore.Dirs.keys ∧ "dir1" ∈ thirdAfter.Dirs.keys) ∧
    ("file1.txt" ∉ (Diff thirdBefore thirdAfter).newFiles ∧
     "file1.txt" ∉ (Diff thirdBefore thirdAfter).removedFiles ∧
     "file1.txt" ∉ (Diff thirdBefore thirdAfter).modifiedFiles) ∧
    ("dir1" ∉ (Diff thirdBefore thirdAfter).newDirs ∧
     "dir1" ∉ (Diff thirdBefore thirdAfter).removedDirs) :=
  ⟨by decide,
   (diff_unchanged thirdBefore thirdAfter "file1.txt").1
     "0069ffe8481777aa403982d9e9b3fa48957015a07cfa0f66dae32050b95bda54" (by decide) (by decide),
   (diff_unchanged thirdBefore thirdAfter "dir1").2 (by decide) (by decide)⟩

/-- C9: a rename is reported as one removal plus one addition.  When the key
sets of the two `Files` maps agree except that `p` is a key of `base.Files`
only and `q` is a key of `other.Files` only, and `q` is stored under the
digest `p` had, `base.Diff(other)` returns `newFiles = [q]` and
`removedFiles = [p]`, and neither `p` nor `q` occurs in `modifiedFiles`. -/
theorem diff_rename (base other : DirectoryReport) (p q : String)
    (hpb : p ∈ base.Files.keys) (hpo : p ∉ other.Files.keys)
    (hqo : q ∈ other.Files.keys) (hqb : q ∉ base.Files.keys) (hqp : q ≠ p)
    (hrest : ∀ k, k ≠ p → k ≠ q → (k ∈ base.Files.keys ↔ k ∈ other.Files.keys))
    (hsum : other.Files.get? q = base.Files.get? p) :
    (Diff base other).newFiles = [q] ∧ (Diff base other).removedFiles = [p] ∧
    p ∉ (Diff base other).modifiedFiles ∧ q ∉ (Diff base other).modifiedFiles := by
  refine ⟨?_, ?_, ?_, ?_⟩
  · rw [Diff_newFiles, eq_singleton_of_nodup _ q (nodup_filter_missing _ _), sortStrings_singleton]
    intro x
    rw [mem_filter_missing]
    constructor
    · rintro ⟨hxo, hxb⟩
      by_contra hxq
      have hxp : x ≠ p := fun h => hpo (h ▸ hxo)
      exact hxb ((hrest x hxp hxq).mpr hxo)
    · rintro rfl
      exact ⟨hqo, hqb⟩
  · rw [Diff_removedFiles, eq_singleton_of_nodup _ p (nodup_filter_missing _ _)]
    intro x
    rw [mem_filter_missing]
    constructor
    · rintro ⟨hxb, hxo⟩
      by_contra hxp
      have hxq : x ≠ q := fun h => hqb (h ▸ hxb)
      exact hxo ((hrest x hxp hxq).mp hxb)
    · rintro rfl
      exact ⟨hpb, hpo⟩
  · rw [mem_Diff_modifiedFiles]
    rintro ⟨s, t, -, ht, -⟩
    exact hpo ((other.Files.mem_keys_iff p).mpr ⟨t, ht⟩)
  · rw [mem_Diff_modifiedFiles]
    rintro ⟨s, t, hs, -, -⟩
    exact hqb ((base.Files.mem_keys_iff q).mpr ⟨s, hs⟩)

/-- Witness of C9 on the snapshots of `ExampleDirectoryReport_Diff`: new
`file3.txt`, removed `file2.txt`, modified `file1.txt`. -/
theorem diff_rename_witness :
    ((Diff exampleBefore exampleAfter).newFiles = ["file3.txt"] ∧
      (Diff exampleBefore exampleAfter).removedFiles = ["file2.txt"] ∧
      "file2.txt" ∉ (Diff exampleBefore exampleAfter).modifiedFiles ∧
      "file3.txt" ∉ (Diff exampleBefore exampleAfter).modifiedFiles) ∧
    (Diff exampleBefore exampleAfter).modifiedFiles = ["file1.txt"] :=
  ⟨diff_rename exampleBefore exampleAfter "file2.txt" "file3.txt" (by decide) (by decide)
      (by decide) (by decide) (by decide)
      (by
        intro k h1 h2
        simp [GoMap.keys, exampleBefore, exampleAfter, h1, h2])
      (by decide),
    by decide⟩


/-! ## Claims on `NewDirectoryReport` -/

theorem walk_error (env : Env) (r : DirectoryReport) (v : Visit) :
    (walk env r v).2 = entryError env r.root v := by
  unfold walk entryError handleDir handleFile
  cases v.err <;> cases v.kind <;> cases env.Rel r.root v.path <;> cases v.openErr <;>
    cases v.closeErr <;> cases v.copyErr <;> rfl

theorem walk_root (env : Env) (r : DirectoryReport) (v : Visit) :
    (walk env r v).1.root = r.root := by
  unfold walk handleDir handleFile
  cases v.err <;> cases v.kind <;> cases env.Rel r.root v.path <;> cases v.openErr <;>
    cases v.closeErr <;> cases v.copyErr <;> rfl

theorem Walk_cons_error {σ : Type} (fn : σ → Visit → σ × Option Error) (v : Visit)
    (vs : List Visit) (s : σ) (e : Error) (h : (fn s v).2 = some e) :
    Walk fn (v :: vs) s = ((fn s v).1, some e) := by
  rcases hf : fn s v with ⟨s1, o⟩
  rw [hf] at h
  cases h
  simp [Walk, hf]

theorem Walk_cons_ok {σ : Type} (fn : σ → Visit → σ × Option Error) (v : Visit)
    (vs : List Visit) (s : σ) (h : (fn s v).2 = none) :
    Walk fn (v :: vs) s = Walk fn vs (fn s v).1 := by
  rcases hf : fn s v with ⟨s1, o⟩
  rw [hf] at h
  cases h
  simp [Walk, hf]

theorem Walk_append_error (env : Env) (pre : List Visit) (v : Visit) (post : List Visit)
    (e : Error) (r : DirectoryReport)
    (hpre : ∀ u ∈ pre, entryError env r.root u = none)
    (hv : entryError env r.root v = some e) :
    ∃ s, Walk (walk env) (pre ++ v :: post) r = (s, some e) ∧
      Walk (walk env) (pre ++ [v]) r = (s, some e) := by
  induction pre generalizing r with
  | nil =>
    refine ⟨(walk env r v).1, ?_, ?_⟩
    · exact Walk_cons_error _ _ _ _ _ ((walk_error env r v).trans hv)
    · exact Walk_cons_error _ _ _ _ _ ((walk_error env r v).trans hv)
  | cons u us ih =>
    have hu : (walk env r u).2 = none :=
      (walk_error env r u).trans (hpre u (List.mem_cons_self _ _))
    rw [List.cons_append, List.cons_append, Walk_cons_ok _ _ _ _ hu, Walk_cons_ok _ _ _ _ hu]
    apply ih
    · intro w hw
      rw [walk_root]
      exact hpre w (List.mem_cons_of_mem _ hw)
    · rw [walk_root]
      exact hv

theorem Walk_ok_iff (env : Env) (visits : List Visit) (r : DirectoryReport) :
    (Walk (walk env) visits r).2 = none ↔ ∀ u ∈ visits, entryError env r.root u = none := by
  induction visits generalizing r with
  | nil => simp [Walk]
  | cons u us ih =>
    cases hu : (walk env r u).2 with
    | some e =>
      rw [Walk_cons_error _ _ _ _ _ hu]
      rw [walk_error] at hu
      simp [hu]
    | none =>
      rw [Walk_cons_ok _ _ _ _ hu, ih, walk_root]
      rw [walk_error] at hu
      simp [hu]

theorem NewDirectoryReport_fst_ne_none_iff (env : Env) (path : String) (visits : List Visit) :
    (NewDirectoryReport env path visits).1 ≠ none
      ↔ (Walk (walk env) visits (newReport path)).2 = none := by
  unfold NewDirectoryReport
  rcases Walk (walk env) visits (newReport path) with ⟨s, _ | e⟩ <;> simp

/-- C10: when some visited entry produces an error, `NewDirectoryReport`
returns a nil report together with the error of the first such entry, and the
traversal ends as if that entry were the last one, whatever follows it; a
non-nil report is returned exactly when no entry produces an error.  The error
an entry produces is the error the callback `walk` returns on it. -/
theorem newDirectoryReport_all_or_nothing (env : Env) (path : String) :
    (∀ (r : DirectoryReport) (v : Visit), (walk env r v).2 = entryError env r.root v) ∧
    (∀ (pre : List Visit) (v : Visit) (post : List Visit) (e : Error),
      (∀ u ∈ pre, entryError env path u = none) → entryError env path v = some e →
        NewDirectoryReport env path (pre ++ v :: post) = (none, some e) ∧
        Walk (walk env) (pre ++ v :: post) (newReport path)
          = Walk (walk env) (pre ++ [v]) (newReport path)) ∧
    (∀ visits : List Visit,
      (NewDirectoryReport env path visits).1 ≠ none
        ↔ ∀ u ∈ visits, entryError env path u = none) := by
  refine ⟨walk_error env, ?_, ?_⟩
  · intro pre v post e hpre hv
    obtain ⟨s, h1, h2⟩ := Walk_append_error env pre v post e (newReport path) hpre hv
    refine ⟨?_, h1.trans h2.symm⟩
    unfold NewDirectoryReport
    rw [h1]
  · intro visits
    rw [NewDirectoryReport_fst_ne_none_iff, Walk_ok_iff]
    rfl


/-- Witness of C10: the traversal visits the root, the file `a`, the file `b`
that cannot be opened, and would visit the file `c`. -/
theorem newDirectoryReport_all_or_nothing_witness :
    NewDirectoryReport stubEnv "t/"
        ([visitDir "t/", visitFile "t/a" [49]] ++ visitLocked "t/b" :: [visitFile "t/c" [50]])
      = (none, some "open: permission denied") ∧
    Walk (walk stubEnv)
        ([visitDir "t/", visitFile "t/a" [49]] ++ visitLocked "t/b" :: [visitFile "t/c" [50]])
        (newReport "t/")
      = Walk (walk stubEnv) ([visitDir "t/", visitFile "t/a" [49]] ++ [visitLocked "t/b"])
          (newReport "t/") :=
  (newDirectoryReport_all_or_nothing stubEnv "t/").2.1 [visitDir "t/", visitFile "t/a" [49]]
    (visitLocked "t/b") [visitFile "t/c" [50]] "open: permission denied" (by decide) (by decide)

/-! ## Further lemmas on `Diff` -/

theorem strLE_antisymm (a b : String) (h1 : strLE a b) (h2 : strLE b a) : a = b :=
  strKey_injective (le_antisymm (α := List Nat) h1 h2)

theorem ascending_ext (l1 l2 : List String) (h1 : Ascending l1) (h2 : Ascending l2)
    (n1 : l1.Nodup) (n2 : l2.Nodup) (hm : ∀ x, x ∈ l1 ↔ x ∈ l2) : l1 = l2 := by
  haveI : IsAntisymm String strLE := ⟨strLE_antisymm⟩
  exact List.eq_of_perm_of_sorted ((List.perm_ext_iff_of_nodup n1 n2).mpr hm) h1 h2

theorem sortStrings_ext (l1 l2 : List String) (n1 : l1.Nodup) (n2 : l2.Nodup)
    (hm : ∀ x, x ∈ l1 ↔ x ∈ l2) : sortStrings l1 = sortStrings l2 := by
  apply ascending_ext _ _ (sortStrings_ascending l1) (sortStrings_ascending l2)
    (sortStrings_nodup l1 n1) (sortStrings_nodup l2 n2)
  intro x
  rw [mem_sortStrings, mem_sortStrings, hm]

theorem eq_nil_of_forall_not_mem (l : List String) (hm : ∀ x, x ∉ l) : l = [] :=
  List.eq_nil_iff_forall_not_mem.mpr hm

theorem mem_Diff_newFiles (r other : DirectoryReport) (p : String) :
    p ∈ (Diff r other).newFiles ↔ p ∈ other.Files.keys ∧ p ∉ r.Files.keys := by
  rw [Diff_newFiles, mem_sortStrings, mem_filter_missing]

theorem mem_Diff_removedFiles (r other : DirectoryReport) (p : String) :
    p ∈ (Diff r other).removedFiles ↔ p ∈ r.Files.keys ∧ p ∉ other.Files.keys := by
  rw [Diff_removedFiles, mem_filter_missing]

theorem mem_Diff_newDirs (r other : DirectoryReport) (p : String) :
    p ∈ (Diff r other).newDirs ↔ p ∈ other.Dirs.keys ∧ p ∉ r.Dirs.keys := by
  rw [Diff_newDirs, mem_sortStrings, mem_filter_missing]

theorem mem_Diff_removedDirs (r other : DirectoryReport) (p : String) :
    p ∈ (Diff r other).removedDirs ↔ p ∈ r.Dirs.keys ∧ p ∉ other.Dirs.keys := by
  rw [Diff_removedDirs, mem_sortStrings, mem_filter_missing]

theorem nodup_Diff_newFiles (r other : DirectoryReport) : (Diff r other).newFiles.Nodup := by
  rw [Diff_newFiles]
  exact sortStrings_nodup _ (nodup_filter_missing _ _)

theorem nodup_Diff_removedFiles (r other : DirectoryReport) :
    (Diff r other).removedFiles.Nodup := by
  rw [Diff_removedFiles]
  exact nodup_filter_missing _ _

theorem nodup_Diff_modifiedFiles (r other : DirectoryReport) :
    (Diff r other).modifiedFiles.Nodup := by
  rw [Diff_modifiedFiles]
  exact sortStrings_nodup _ (nodup_modified _ _)

theorem ascending_Diff_modifiedFiles (r other : DirectoryReport) :
    Ascending (Diff r other).modifiedFiles := by
  rw [Diff_modifiedFiles]
  exact sortStrings_ascending _

theorem keys_iff_of_get?_eq {V : Type} (m n : GoMap V) (k : String) (h : m.get? k = n.get? k) :
    k ∈ m.keys ↔ k ∈ n.keys := by
  rw [GoMap.mem_keys_iff, GoMap.mem_keys_iff, h]

/-- C14: when the two snapshots have the same directories and their `Files`
maps agree everywhere except at one path `p`, a key of both with different
digests, `base.Diff(other)` returns `modifiedFiles = [p]` and the four other
lists empty. -/
theorem diff_modified_only (base other : DirectoryReport) (p s t : String)
    (hdirs : ∀ k, k ∈ base.Dirs.keys ↔ k ∈ other.Dirs.keys)
    (hrest : ∀ k, k ≠ p → base.Files.get? k = other.Files.get? k)
    (hb : base.Files.get? p = some s) (ho : other.Files.get? p = some t) (hne : s ≠ t) :
    Diff base other = { newFiles := [], removedFiles := [], modifiedFiles := [p], newDirs := [],
                        removedDirs := [] } := by
  have hkeys : ∀ k, k ∈ base.Files.keys ↔ k ∈ other.Files.keys := by
    intro k
    by_cases hk : k = p
    · subst hk
      rw [GoMap.mem_keys_iff, GoMap.mem_keys_iff, hb, ho]
      simp
    · exact keys_iff_of_get?_eq _ _ k (hrest k hk)
  have h1 : (Diff base other).newFiles = [] :=
    eq_nil_of_forall_not_mem _ fun x hx => by
      rw [mem_Diff_newFiles, hkeys] at hx
      exact hx.2 hx.1
  have h2 : (Diff base other).removedFiles = [] :=
    eq_nil_of_forall_not_mem _ fun x hx => by
      rw [mem_Diff_removedFiles, hkeys] at hx
      exact hx.2 hx.1
  have h3 : (Diff base other).modifiedFiles = [p] := by
    apply eq_singleton_of_nodup _ p (nodup_Diff_modifiedFiles _ _)
    intro x
    rw [mem_Diff_modifiedFiles]
    constructor
    · rintro ⟨a, b, ha, hb2, hab⟩
      by_contra hx
      rw [hrest x hx, hb2] at ha
      cases ha
      exact hab rfl
    · rintro rfl
      exact ⟨s, t, hb, ho, hne⟩
  have h4 : (Diff base other).newDirs = [] :=
    eq_nil_of_forall_not_mem _ fun x hx => by
      rw [mem_Diff_newDirs, hdirs] at hx
      exact hx.2 hx.1
  have h5 : (Diff base other).removedDirs = [] :=
    eq_nil_of_forall_not_mem _ fun x hx => by
      rw [mem_Diff_removedDirs, hdirs] at hx
      exact hx.2 hx.1
  cases hd : Diff base other
  simp_all

/-- C15: when `p` is not a key of `base.Files` and `other` has the same
directories as `base` and the files of `base` plus one entry under `p`,
`base.Diff(other)` returns `newFiles = [p]` and the four other lists empty. -/
theorem diff_new_only (base other : DirectoryReport) (p : String)
    (hdirs : ∀ k, k ∈ base.Dirs.keys ↔ k ∈ other.Dirs.keys)
    (hrest : ∀ k, k ≠ p → other.Files.get? k = base.Files.get? k)
    (hb : p ∉ base.Files.keys) (ho : p ∈ other.Files.keys) :
    Diff base other = { newFiles := [p], removedFiles := [], modifiedFiles := [], newDirs := [],
                        removedDirs := [] } := by
  have hkeys : ∀ k, k ≠ p → (k ∈ other.Files.keys ↔ k ∈ base.Files.keys) :=
    fun k hk => keys_iff_of_get?_eq _ _ k (hrest k hk)
  have h1 : (Diff base other).newFiles = [p] := by
    apply eq_singleton_of_nodup _ p (nodup_Diff_newFiles _ _)
    intro x
    rw [mem_Diff_newFiles]
    constructor
    · rintro ⟨hxo, hxb⟩
      by_contra hx
      exact hxb ((hkeys x hx).mp hxo)
    · rintro rfl
      exact ⟨ho, hb⟩
  have h2 : (Diff base other).removedFiles = [] :=
    eq_nil_of_forall_not_mem _ fun x hx => by
      rw [mem_Diff_removedFiles] at hx
      have hxp : x ≠ p := fun h => hb (h ▸ hx.1)
      exact hx.2 ((hkeys x hxp).mpr hx.1)
  have h3 : (Diff base other).modifiedFiles = [] :=
    eq_nil_of_forall_not_mem _ fun x hx => by
      rw [mem_Diff_modifiedFiles] at hx
      obtain ⟨a, b, ha, hb2, hab⟩ := hx
      have hxp : x ≠ p := fun h => hb (h ▸ (base.Files.mem_keys_iff x).mpr ⟨a, ha⟩)
      rw [hrest x hxp, ha] at hb2
      cases hb2
      exact hab rfl
  have h4 : (Diff base other).newDirs = [] :=
    eq_nil_of_forall_not_mem _ fun x hx => by
      rw [mem_Diff_newDirs, hdirs] at hx
      exact hx.2 hx.1
  have h5 : (Diff base other).removedDirs = [] :=
    eq_nil_of_forall_not_mem _ fun x hx => by
      rw [mem_Diff_removedDirs, hdirs] at hx
      exact hx.2 hx.1
  cases hd : Diff base other
  simp_all

/-- C17: the three file lists of `base.Diff(other)` are pairwise disjoint, and
so are `newDirs` and `removedDirs`. -/
theorem diff_disjoint (base other : DirectoryReport) :
    (Diff base other).newFiles.Disjoint (Diff base other).removedFiles ∧
    (Diff base other).newFiles.Disjoint (Diff base other).modifiedFiles ∧
    (Diff base other).removedFiles.Disjoint (Diff base other).modifiedFiles ∧
    (Diff base other).newDirs.Disjoint (Diff base other).removedDirs := by
  refine ⟨?_, ?_, ?_, ?_⟩
  · intro x h1 h2
    rw [mem_Diff_newFiles] at h1
    rw [mem_Diff_removedFiles] at h2
    exact h1.2 h2.1
  · intro x h1 h2
    rw [mem_Diff_newFiles] at h1
    rw [mem_Diff_modifiedFiles] at h2
    obtain ⟨s, t, hs, -, -⟩ := h2
    exact h1.2 ((base.Files.mem_keys_iff x).mpr ⟨s, hs⟩)
  · intro x h1 h2
    rw [mem_Diff_removedFiles] at h1
    rw [mem_Diff_modifiedFiles] at h2
    obtain ⟨s, t, -, ht, -⟩ := h2
    exact h1.2 ((other.Files.mem_keys_iff x).mpr ⟨t, ht⟩)
  · intro x h1 h2
    rw [mem_Diff_newDirs] at h1
    rw [mem_Diff_removedDirs] at h2
    exact h1.2 h2.1

/-- C18: swapping the arguments of `Diff` swaps additions with removals:
`a.Diff(b).newFiles` and `b.Diff(a).removedFiles` hold the same paths, so do
`a.Diff(b).newDirs` and `b.Diff(a).removedDirs`, and the two `modifiedFiles`
lists are equal. -/
theorem diff_swap (a b : DirectoryReport) :
    (∀ p, p ∈ (Diff a b).newFiles ↔ p ∈ (Diff b a).removedFiles) ∧
    (∀ p, p ∈ (Diff a b).newDirs ↔ p ∈ (Diff b a).removedDirs) ∧
    (Diff a b).modifiedFiles = (Diff b a).modifiedFiles := by
  refine ⟨fun p => ?_, fun p => ?_, ?_⟩
  · rw [mem_Diff_newFiles, mem_Diff_removedFiles]
  · rw [mem_Diff_newDirs, mem_Diff_removedDirs]
  · apply ascending_ext _ _ (ascending_Diff_modifiedFiles a b) (ascending_Diff_modifiedFiles b a)
      (nodup_Diff_modifiedFiles a b) (nodup_Diff_modifiedFiles b a)
    intro x
    rw [mem_Diff_modifiedFiles, mem_Diff_modifiedFiles]
    constructor
    · rintro ⟨s, t, hs, ht, hne⟩
      exact ⟨t, s, ht, hs, fun h => hne h.symm⟩
    · rintro ⟨s, t, hs, ht, hne⟩
      exact ⟨t, s, ht, hs, fun h => hne h.symm⟩


/-! ## Lemmas on the builder -/

theorem GoMap.get?_set {V : Type} (m : GoMap V) (a : String) (v : V) (k : String) :
    (m.set a v).get? k = if k = a then some v else m.get? k := by
  apply Option.ext
  intro w
  simp only [Option.mem_def]
  rw [GoMap.get?_eq_some_iff]
  by_cases hk : k = a
  · subst hk
    simp [GoMap.set, List.mem_filter]
    exact eq_comm
  · simp [GoMap.set, List.mem_filter, hk, GoMap.get?_eq_some_iff]

theorem GoMap.mem_keys_set {V : Type} (m : GoMap V) (a : String) (v : V) (k : String) :
    k ∈ (m.set a v).keys ↔ k = a ∨ k ∈ m.keys := by
  rw [GoMap.mem_keys_iff, GoMap.mem_keys_iff, GoMap.get?_set]
  by_cases hk : k = a <;> simp [hk]

theorem walk_special_eq (env : Env) (r : DirectoryReport) (v : Visit) (herr : v.err = none)
    (hkind : v.kind = .special) : walk env r v = (r, none) := by
  simp [walk, herr, hkind]

theorem walk_dir_eq (env : Env) (r : DirectoryReport) (v : Visit) (k : String)
    (herr : v.err = none) (hkind : v.kind = .dir) (hrel : env.Rel r.root v.path = .ok k) :
    walk env r v = ({ r with Dirs := r.Dirs.set k () }, none) := by
  simp [walk, handleDir, herr, hkind, hrel]

theorem walk_regular_eq (env : Env) (r : DirectoryReport) (v : Visit) (k : String)
    (herr : v.err = none) (hkind : v.kind = .regular) (hrel : env.Rel r.root v.path = .ok k)
    (hopen : v.openErr = none) (hclose : v.closeErr = none) (hcopy : v.copyErr = none) :
    walk env r v
      = ({ r with hasher := v.content
                  Files := r.Files.set k (hexEncodeToString (env.sha256 v.content)) }, none) := by
  simp [walk, handleFile, herr, hkind, hrel, hopen, hclose, hcopy]

theorem entryError_none_cases (env : Env) (root : String) (v : Visit)
    (h : entryError env root v = none) :
    v.err = none ∧
      (v.kind = .special ∨ (v.kind = .dir ∧ ∃ k, env.Rel root v.path = .ok k) ∨
        (v.kind = .regular ∧ ∃ k, env.Rel root v.path = .ok k ∧ v.openErr = none ∧
          v.closeErr = none ∧ v.copyErr = none)) := by
  unfold entryError at h
  cases herr : v.err with
  | some e => simp [herr] at h
  | none =>
    refine ⟨rfl, ?_⟩
    rw [herr] at h
    cases hkind : v.kind with
    | special => exact Or.inl rfl
    | dir =>
      rw [hkind] at h
      cases hrel : env.Rel root v.path with
      | error e => simp [hrel] at h
      | ok k => exact Or.inr (Or.inl ⟨rfl, k, rfl⟩)
    | regular =>
      rw [hkind] at h
      cases hrel : env.Rel root v.path with
      | error e => simp [hrel] at h
      | ok k =>
        refine Or.inr (Or.inr ⟨rfl, k, rfl, ?_⟩)
        rw [hrel] at h
        cases ho : v.openErr <;> cases hc : v.closeErr <;> cases hy : v.copyErr <;>
          simp [ho, hc, hy] at h ⊢

theorem walk_dirs_keys (env : Env) (r : DirectoryReport) (v : Visit)
    (h : entryError env r.root v = none) (k : String) :
    k ∈ (walk env r v).1.Dirs.keys
      ↔ k ∈ r.Dirs.keys ∨ (v.kind = .dir ∧ env.Rel r.root v.path = .ok k) := by
  obtain ⟨herr, hs | ⟨hd, a, ha⟩ | ⟨hr, a, ha, ho, hc, hy⟩⟩ := entryError_none_cases env r.root v h
  · rw [walk_special_eq env r v herr hs]
    simp [hs]
  · rw [walk_dir_eq env r v a herr hd ha]
    simp only [GoMap.mem_keys_set, hd, ha, true_and, Except.ok.injEq]
    rw [or_comm, eq_comm]
  · rw [walk_regular_eq env r v a herr hr ha ho hc hy]
    simp [hr]

theorem walk_files_keys (env : Env) (r : DirectoryReport) (v : Visit)
    (h : entryError env r.root v = none) (k : String) :
    k ∈ (walk env r v).1.Files.keys
      ↔ k ∈ r.Files.keys ∨ (v.kind = .regular ∧ env.Rel r.root v.path = .ok k) := by
  obtain ⟨herr, hs | ⟨hd, a, ha⟩ | ⟨hr, a, ha, ho, hc, hy⟩⟩ := entryError_none_cases env r.root v h
  · rw [walk_special_eq env r v herr hs]
    simp [hs]
  · rw [walk_dir_eq env r v a herr hd ha]
    simp [hd]
  · rw [walk_regular_eq env r v a herr hr ha ho hc hy]
    simp only [GoMap.mem_keys_set, hr, ha, true_and, Except.ok.injEq]
    rw [or_comm, eq_comm]

theorem walk_files_get? (env : Env) (r : DirectoryReport) (v : Visit)
    (h : entryError env r.root v = none) (k : String)
    (hk : v.kind = .regular → env.Rel r.root v.path ≠ .ok k) :
    (walk env r v).1.Files.get? k = r.Files.get? k := by
  obtain ⟨herr, hs | ⟨hd, a, ha⟩ | ⟨hr, a, ha, ho, hc, hy⟩⟩ := entryError_none_cases env r.root v h
  · rw [walk_special_eq env r v herr hs]
  · rw [walk_dir_eq env r v a herr hd ha]
  · rw [walk_regular_eq env r v a herr hr ha ho hc hy]
    have hne : k ≠ a := by
      rintro rfl
      exact hk hr ha
    simp [GoMap.get?_set, hne]

theorem Walk_root (env : Env) (visits : List Visit) (r : DirectoryReport) :
    (Walk (walk env) visits r).1.root = r.root := by
  induction visits generalizing r with
  | nil => rfl
  | cons u us ih =>
    cases hu : (walk env r u).2 with
    | some e => rw [Walk_cons_error _ _ _ _ _ hu, walk_root]
    | none => rw [Walk_cons_ok _ _ _ _ hu, ih, walk_root]

theorem Walk_append_ok {σ : Type} (fn : σ → Visit → σ × Option Error) (l1 l2 : List Visit)
    (s : σ) (h : (Walk fn l1 s).2 = none) :
    Walk fn (l1 ++ l2) s = Walk fn l2 (Walk fn l1 s).1 := by
  induction l1 generalizing s with
  | nil => rfl
  | cons u us ih =>
    cases hu : (fn s u).2 with
    | some e =>
      rw [Walk_cons_error _ _ _ _ _ hu] at h
      cases h
    | none =>
      rw [Walk_cons_ok _ _ _ _ hu] at h
      rw [List.cons_append, Walk_cons_ok _ _ _ _ hu, Walk_cons_ok _ _ _ _ hu, ih _ h]

theorem Walk_append_congr {σ : Type} (fn : σ → Visit → σ × Option Error)
    (pre l1 l2 : List Visit) (h : ∀ s, Walk fn l1 s = Walk fn l2 s) (s : σ) :
    Walk fn (pre ++ l1) s = Walk fn (pre ++ l2) s := by
  induction pre generalizing s with
  | nil => exact h s
  | cons u us ih =>
    cases hu : (fn s u).2 with
    | some e =>
      rw [List.cons_append, List.cons_append, Walk_cons_error _ _ _ _ _ hu,
        Walk_cons_error _ _ _ _ _ hu]
    | none =>
      rw [List.cons_append, List.cons_append, Walk_cons_ok _ _ _ _ hu, Walk_cons_ok _ _ _ _ hu,
        ih]

theorem Walk_dirs_keys (env : Env) (visits : List Visit) (r : DirectoryReport)
    (h : ∀ u ∈ visits, entryError env r.root u = none) (k : String) :
    k ∈ (Walk (walk env) visits r).1.Dirs.keys
      ↔ k ∈ r.Dirs.keys ∨ ∃ u ∈ visits, u.kind = .dir ∧ env.Rel r.root u.path = .ok k := by
  induction visits generalizing r with
  | nil => simp [Walk]
  | cons u us ih =>
    have hu := h u (List.mem_cons_self _ _)
    have hu2 : (walk env r u).2 = none := (walk_error env r u).trans hu
    rw [Walk_cons_ok _ _ _ _ hu2, ih, walk_root, walk_dirs_keys env r u hu]
    · simp only [List.mem_cons, exists_eq_or_imp, or_assoc]
    · intro w hw
      rw [walk_root]
      exact h w (List.mem_cons_of_mem _ hw)

theorem Walk_files_keys (env : Env) (visits : List Visit) (r : DirectoryReport)
    (h : ∀ u ∈ visits, entryError env r.root u = none) (k : String) :
    k ∈ (Walk (walk env) visits r).1.Files.keys
      ↔ k ∈ r.Files.keys
        ∨ ∃ u ∈ visits, u.kind = .regular ∧ env.Rel r.root u.path = .ok k := by
  induction visits generalizing r with
  | nil => simp [Walk]
  | cons u us ih =>
    have hu := h u (List.mem_cons_self _ _)
    have hu2 : (walk env r u).2 = none := (walk_error env r u).trans hu
    rw [Walk_cons_ok _ _ _ _ hu2, ih, walk_root, walk_files_keys env r u hu]
    · simp only [List.mem_cons, exists_eq_or_imp, or_assoc]
    · intro w hw
      rw [walk_root]
      exact h w (List.mem_cons_of_mem _ hw)

theorem Walk_files_get? (env : Env) (visits : List Visit) (r : DirectoryReport)
    (h : ∀ u ∈ visits, entryError env r.root u = none) (k : String)
    (hk : ∀ u ∈ visits, u.kind = .regular → env.Rel r.root u.path ≠ .ok k) :
    (Walk (walk env) visits r).1.Files.get? k = r.Files.get? k := by
  induction visits generalizing r with
  | nil => rfl
  | cons u us ih =>
    have hu := h u (List.mem_cons_self _ _)
    have hu2 : (walk env r u).2 = none := (walk_error env r u).trans hu
    rw [Walk_cons_ok _ _ _ _ hu2, ih, walk_files_get? env r u hu k (hk u (List.mem_cons_self _ _))]
    · intro w hw
      rw [walk_root]
      exact h w (List.mem_cons_of_mem _ hw)
    · intro w hw
      rw [walk_root]
      exact hk w (List.mem_cons_of_mem _ hw)

theorem NewDirectoryReport_ok (env : Env) (path : String) (visits : List Visit)
    (h : ∀ u ∈ visits, entryError env path u = none) :
    NewDirectoryReport env path visits
      = (some (Walk (walk env) visits (newReport path)).1, none) := by
  have hw : (Walk (walk env) visits (newReport path)).2 = none :=
    (Walk_ok_iff env visits (newReport path)).mpr h
  unfold NewDirectoryReport
  rcases hW : Walk (walk env) visits (newReport path) with ⟨s, o⟩
  rw [hW] at hw
  cases hw
  rfl


theorem hexDigit_mem (n : Nat) : hexDigit n ∈ "0123456789abcdef".data := by
  unfold hexDigit
  by_cases h : n < 16
  · interval_cases n <;> decide
  · have : "0123456789abcdef".data.length ≤ n := by
      have : "0123456789abcdef".data.length = 16 := by decide
      omega
    rw [List.getD_eq_default _ _ this]
    decide

theorem hexEncodeToString_lowercase (bytes : List Nat) :
    ∀ c ∈ (hexEncodeToString bytes).data, c ∈ "0123456789abcdef".data := by
  intro c hc
  simp only [hexEncodeToString, List.mem_flatMap, List.mem_cons, List.mem_singleton,
    List.not_mem_nil, or_false] at hc
  obtain ⟨b, -, rfl | rfl⟩ := hc <;> exact hexDigit_mem _

theorem GoMap.get?_perm {V : Type} (m n : GoMap V) (h : m.entries.Perm n.entries) (k : String) :
    m.get? k = n.get? k := by
  apply Option.ext
  intro w
  simp only [Option.mem_def]
  rw [GoMap.get?_eq_some_iff, GoMap.get?_eq_some_iff, h.mem_iff]

theorem GoMap.keys_perm {V : Type} (m n : GoMap V) (h : m.entries.Perm n.entries) (k : String) :
    k ∈ m.keys ↔ k ∈ n.keys :=
  (h.map Prod.fst).mem_iff

theorem ascending_Diff_newFiles (r other : DirectoryReport) :
    Ascending (Diff r other).newFiles := by
  rw [Diff_newFiles]
  exact sortStrings_ascending _

theorem ascending_Diff_newDirs (r other : DirectoryReport) :
    Ascending (Diff r other).newDirs := by
  rw [Diff_newDirs]
  exact sortStrings_ascending _

theorem ascending_Diff_removedDirs (r other : DirectoryReport) :
    Ascending (Diff r other).removedDirs := by
  rw [Diff_removedDirs]
  exact sortStrings_ascending _

theorem nodup_Diff_newDirs (r other : DirectoryReport) : (Diff r other).newDirs.Nodup := by
  rw [Diff_newDirs]
  exact sortStrings_nodup _ (nodup_filter_missing _ _)

theorem nodup_Diff_removedDirs (r other : DirectoryReport) :
    (Diff r other).removedDirs.Nodup := by
  rw [Diff_removedDirs]
  exact sortStrings_nodup _ (nodup_filter_missing _ _)

/-- C11: an error-free traversal makes `NewDirectoryReport` return a report
whose `Dirs` keys are exactly the root-relative paths of the directories
visited and whose `Files` keys are exactly the root-relative paths of the
regular files visited. -/
theorem newDirectoryReport_paths (env : Env) (path : String) (visits : List Visit)
    (hok : ∀ u ∈ visits, entryError env path u = none) :
    ∃ r, NewDirectoryReport env path visits = (some r, none) ∧
      (∀ k, k ∈ r.Dirs.keys ↔ ∃ u ∈ visits, u.kind = .dir ∧ env.Rel path u.path = .ok k) ∧
      (∀ k, k ∈ r.Files.keys
        ↔ ∃ u ∈ visits, u.kind = .regular ∧ env.Rel path u.path = .ok k) := by
  refine ⟨_, NewDirectoryReport_ok env path visits hok, fun k => ?_, fun k => ?_⟩
  · rw [Walk_dirs_keys env visits (newReport path) hok k]
    simp [newReport, GoMap.keys, GoMap.empty]
  · rw [Walk_files_keys env visits (newReport path) hok k]
    simp [newReport, GoMap.keys, GoMap.empty]

/-- Witness of C11: the traversal of a root with a file, a symbolic link and a
directory. -/
theorem newDirectoryReport_paths_witness :
    ∃ r, NewDirectoryReport stubEnv "t/"
          [visitDir "t/", visitFile "t/a" [49], visitSymlink "t/l", visitDir "t/d"]
          = (some r, none) ∧
      (∀ k, k ∈ r.Dirs.keys
        ↔ ∃ u ∈ [visitDir "t/", visitFile "t/a" [49], visitSymlink "t/l", visitDir "t/d"],
            u.kind = .dir ∧ stubEnv.Rel "t/" u.path = .ok k) ∧
      (∀ k, k ∈ r.Files.keys
        ↔ ∃ u ∈ [visitDir "t/", visitFile "t/a" [49], visitSymlink "t/l", visitDir "t/d"],
            u.kind = .regular ∧ stubEnv.Rel "t/" u.path = .ok k) :=
  newDirectoryReport_paths stubEnv "t/"
    [visitDir "t/", visitFile "t/a" [49], visitSymlink "t/l", visitDir "t/d"] (by decide)

/-- C12: on an entry without traversal error that is neither a directory nor
a regular file the callback `walk` returns no error and leaves `Files` and
`Dirs` unchanged, and the traversal gives the same result as the traversal
without that entry. -/
theorem walk_skips_special (env : Env) (v : Visit) (herr : v.err = none)
    (hkind : v.kind = .special) :
    (∀ r : DirectoryReport, (walk env r v).2 = none ∧ (walk env r v).1.Files = r.Files ∧
      (walk env r v).1.Dirs = r.Dirs) ∧
    (∀ (path : String) (pre post : List Visit),
      NewDirectoryReport env path (pre ++ v :: post)
        = NewDirectoryReport env path (pre ++ post)) := by
  constructor
  · intro r
    rw [walk_special_eq env r v herr hkind]
    exact ⟨rfl, rfl, rfl⟩
  · intro path pre post
    unfold NewDirectoryReport
    rw [Walk_append_congr (walk env) pre (v :: post) post]
    intro s
    have hs : (walk env s v).2 = none := by rw [walk_special_eq env s v herr hkind]
    rw [Walk_cons_ok _ _ _ _ hs, walk_special_eq env s v herr hkind]

/-- Witness of C12: a symbolic link between two files. -/
theorem walk_skips_special_witness :
    (∀ r : DirectoryReport, (walk stubEnv r (visitSymlink "t/l")).2 = none ∧
      (walk stubEnv r (visitSymlink "t/l")).1.Files = r.Files ∧
      (walk stubEnv r (visitSymlink "t/l")).1.Dirs = r.Dirs) ∧
    (∀ (path : String) (pre post : List Visit),
      NewDirectoryReport stubEnv path (pre ++ visitSymlink "t/l" :: post)
        = NewDirectoryReport stubEnv path (pre ++ post)) :=
  walk_skips_special stubEnv (visitSymlink "t/l") rfl rfl


theorem walk_regular_get? (env : Env) (r : DirectoryReport) (v : Visit) (k : String)
    (h : entryError env r.root v = none) (hkind : v.kind = .regular)
    (hrel : env.Rel r.root v.path = .ok k) :
    (walk env r v).2 = none ∧
      (walk env r v).1.Files.get? k = some (hexEncodeToString (env.sha256 v.content)) := by
  obtain ⟨herr, hs | ⟨hd, -⟩ | ⟨-, a, ha, ho, hc, hy⟩⟩ := entryError_none_cases env r.root v h
  · rw [hkind] at hs
    cases hs
  · rw [hkind] at hd
    cases hd
  · rw [walk_regular_eq env r v k herr hkind hrel ho hc hy]
    simp [GoMap.get?_set]

theorem Walk_last_writer (env : Env) (path : String) (pre : List Visit) (v : Visit)
    (post : List Visit) (k : String)
    (hok : ∀ u ∈ pre ++ v :: post, entryError env path u = none) (hkind : v.kind = .regular)
    (hrel : env.Rel path v.path = .ok k)
    (hlast : ∀ u ∈ post, u.kind = .regular → env.Rel path u.path ≠ .ok k) :
    ∃ r, NewDirectoryReport env path (pre ++ v :: post) = (some r, none) ∧
      r.Files.get? k = some (hexEncodeToString (env.sha256 v.content)) := by
  refine ⟨_, NewDirectoryReport_ok env path _ hok, ?_⟩
  have hpre : (Walk (walk env) pre (newReport path)).2 = none :=
    (Walk_ok_iff env pre (newReport path)).mpr
      fun u hu => hok u (List.mem_append_left _ hu)
  have hroot : (Walk (walk env) pre (newReport path)).1.root = path := Walk_root env pre _
  rw [Walk_append_ok (walk env) pre (v :: post) (newReport path) hpre]
  generalize (Walk (walk env) pre (newReport path)).1 = s at hroot
  subst hroot
  have hv : entryError env s.root v = none :=
    hok v (List.mem_append_right _ (List.mem_cons_self _ _))
  obtain ⟨h1, h2⟩ := walk_regular_get? env s v k hv hkind hrel
  rw [Walk_cons_ok _ _ _ _ h1, Walk_files_get? env post _ _ k, h2]
  · intro u hu
    rw [walk_root]
    exact hlast u hu
  · intro u hu
    rw [walk_root]
    exact hok u (List.mem_append_right _ (List.mem_cons_of_mem _ hu))

/-- C13: the digest stored for a regular file is the lowercase hex encoding of
the hash of the bytes of that file alone, whatever the report and its hasher
held before and whatever was visited before; two files with the same content,
in one traversal or in two, are stored under the same digest.  (A file is the
last regular file visited under its relative path.) -/
theorem digest_per_file (env : Env) :
    (∀ (r : DirectoryReport) (v : Visit) (k : String),
      entryError env r.root v = none → v.kind = .regular → env.Rel r.root v.path = .ok k →
        (walk env r v).2 = none ∧
        (walk env r v).1.Files.get? k = some (hexEncodeToString (env.sha256 v.content))) ∧
    (∀ (path : String) (pre : List Visit) (v : Visit) (post : List Visit) (k : String),
      (∀ u ∈ pre ++ v :: post, entryError env path u = none) → v.kind = .regular →
      env.Rel path v.path = .ok k →
      (∀ u ∈ post, u.kind = .regular → env.Rel path u.path ≠ .ok k) →
        ∃ r, NewDirectoryReport env path (pre ++ v :: post) = (some r, none) ∧
          r.Files.get? k = some (hexEncodeToString (env.sha256 v.content))) ∧
    (∀ bytes : List Nat, ∀ c ∈ (hexEncodeToString bytes).data, c ∈ "0123456789abcdef".data) ∧
    (∀ (path1 : String) (pre1 : List Visit) (v1 : Visit) (post1 : List Visit) (k1 : String)
        (path2 : String) (pre2 : List Visit) (v2 : Visit) (post2 : List Visit) (k2 : String),
      (∀ u ∈ pre1 ++ v1 :: post1, entryError env path1 u = none) → v1.kind = .regular →
      env.Rel path1 v1.path = .ok k1 →
      (∀ u ∈ post1, u.kind = .regular → env.Rel path1 u.path ≠ .ok k1) →
      (∀ u ∈ pre2 ++ v2 :: post2, entryError env path2 u = none) → v2.kind = .regular →
      env.Rel path2 v2.path = .ok k2 →
      (∀ u ∈ post2, u.kind = .regular → env.Rel path2 u.path ≠ .ok k2) →
      v1.content = v2.content →
        ∃ r1 r2 d, NewDirectoryReport env path1 (pre1 ++ v1 :: post1) = (some r1, none) ∧
          NewDirectoryReport env path2 (pre2 ++ v2 :: post2) = (some r2, none) ∧
          r1.Files.get? k1 = some d ∧ r2.Files.get? k2 = some d) := by
  refine ⟨walk_regular_get? env, Walk_last_writer env, hexEncodeToString_lowercase, ?_⟩
  intro path1 pre1 v1 post1 k1 path2 pre2 v2 post2 k2 ha1 ha2 ha3 ha4 hb1 hb2 hb3 hb4 hc
  obtain ⟨r1, hr1, hd1⟩ := Walk_last_writer env path1 pre1 v1 post1 k1 ha1 ha2 ha3 ha4
  obtain ⟨r2, hr2, hd2⟩ := Walk_last_writer env path2 pre2 v2 post2 k2 hb1 hb2 hb3 hb4
  exact ⟨r1, r2, _, hr1, hr2, hd1, hc ▸ hd2⟩

/-- Witness of C13: the files `a` and `b` hold the same byte and are stored
under the same digest; `c` holds another byte. -/
theorem digest_per_file_witness :
    ∃ r, NewDirectoryReport stubEnv "t/"
          ([visitDir "t/", visitFile "t/a" [49]] ++ visitFile "t/b" [49] ::
            [visitFile "t/c" [50, 51]])
          = (some r, none) ∧
      r.Files.get? "b" = some (hexEncodeToString (stubEnv.sha256 [49])) :=
  (digest_per_file stubEnv).2.1 "t/" [visitDir "t/", visitFile "t/a" [49]]
    (visitFile "t/b" [49]) [visitFile "t/c" [50, 51]] "b" (by decide) rfl rfl
    (by
      intro u hu _
      simp only [List.mem_singleton] at hu
      subst hu
      intro h
      have h2 : (Except.ok "c" : Except Error String) = Except.ok "b" := h
      exact absurd (Except.ok.inj h2) (by decide))

/-- C16: the four lists `Diff` hands to `sort.Strings` (`newFiles`,
`modifiedFiles`, `newDirs`, `removedDirs`) are returned in ascending order,
and they are the same for any other iteration order of the four maps. -/
theorem diff_sorted_determined (base other : DirectoryReport) :
    (Ascending (Diff base other).newFiles ∧ Ascending (Diff base other).modifiedFiles ∧
      Ascending (Diff base other).newDirs ∧ Ascending (Diff base other).removedDirs) ∧
    ∀ base2 other2 : DirectoryReport,
      base2.Files.entries.Perm base.Files.entries → base2.Dirs.entries.Perm base.Dirs.entries →
      other2.Files.entries.Perm other.Files.entries →
      other2.Dirs.entries.Perm other.Dirs.entries →
        (Diff base2 other2).newFiles = (Diff base other).newFiles ∧
        (Diff base2 other2).modifiedFiles = (Diff base other).modifiedFiles ∧
        (Diff base2 other2).newDirs = (Diff base other).newDirs ∧
        (Diff base2 other2).removedDirs = (Diff base other).removedDirs := by
  refine ⟨⟨ascending_Diff_newFiles _ _, ascending_Diff_modifiedFiles _ _,
    ascending_Diff_newDirs _ _, ascending_Diff_removedDirs _ _⟩, ?_⟩
  intro base2 other2 hbf hbd hof hod
  refine ⟨?_, ?_, ?_, ?_⟩
  · apply ascending_ext _ _ (ascending_Diff_newFiles _ _) (ascending_Diff_newFiles _ _)
      (nodup_Diff_newFiles _ _) (nodup_Diff_newFiles _ _)
    intro x
    rw [mem_Diff_newFiles, mem_Diff_newFiles, GoMap.keys_perm _ _ hbf, GoMap.keys_perm _ _ hof]
  · apply ascending_ext _ _ (ascending_Diff_modifiedFiles _ _)
      (ascending_Diff_modifiedFiles _ _) (nodup_Diff_modifiedFiles _ _)
      (nodup_Diff_modifiedFiles _ _)
    intro x
    rw [mem_Diff_modifiedFiles, mem_Diff_modifiedFiles, GoMap.get?_perm _ _ hbf,
      GoMap.get?_perm _ _ hof]
  · apply ascending_ext _ _ (ascending_Diff_newDirs _ _) (ascending_Diff_newDirs _ _)
      (nodup_Diff_newDirs _ _) (nodup_Diff_newDirs _ _)
    intro x
    rw [mem_Diff_newDirs, mem_Diff_newDirs, GoMap.keys_perm _ _ hbd, GoMap.keys_perm _ _ hod]
  · apply ascending_ext _ _ (ascending_Diff_removedDirs _ _) (ascending_Diff_removedDirs _ _)
      (nodup_Diff_removedDirs _ _) (nodup_Diff_removedDirs _ _)
    intro x
    rw [mem_Diff_removedDirs, mem_Diff_removedDirs, GoMap.keys_perm _ _ hbd,
      GoMap.keys_perm _ _ hod]

/-- Witness of C16: the files `a` and `b` are new, and `newFiles` is the same
whether the map is iterated `b`, `a` or `a`, `b`. -/
theorem diff_sorted_determined_witness :
    ((Diff emptyTree sortedBase).newFiles = (Diff emptyTree unsortedBase).newFiles ∧
      (Diff emptyTree sortedBase).modifiedFiles = (Diff emptyTree unsortedBase).modifiedFiles ∧
      (Diff emptyTree sortedBase).newDirs = (Diff emptyTree unsortedBase).newDirs ∧
      (Diff emptyTree sortedBase).removedDirs = (Diff emptyTree unsortedBase).removedDirs) ∧
    (Diff emptyTree unsortedBase).newFiles = ["a", "b"] :=
  ⟨(diff_sorted_determined emptyTree unsortedBase).2 emptyTree sortedBase (List.Perm.refl _)
      (List.Perm.refl _) (List.Perm.swap _ _ _) (List.Perm.refl _),
    by decide⟩

/-- Witness of C14 on the snapshots of `TestModifiedFile`. -/
theorem diff_modified_only_witness :
    Diff modifiedOld modifiedNew
      = { newFiles := [], removedFiles := [], modifiedFiles := ["a"], newDirs := [],
          removedDirs := [] } :=
  diff_modified_only modifiedOld modifiedNew "a"
    "6b86b273ff34fce19d6b804eff5a3f5747ada4eaa22f1d49c01e52ddb7875b4b"
    "d4735e3a265e16eee03f59718b9b5d03019c07d8b6c51f90da3a666eec13ab35"
    (by intro k; rfl)
    (by
      intro k hk
      have h2 : (k == "a") = false := by simpa using hk
      simp [GoMap.get?, modifiedOld, modifiedNew, List.lookup, h2])
    (by decide) (by decide) (by decide)

/-- Witness of C15 on the snapshots of `TestNewFile`. -/
theorem diff_new_only_witness :
    Diff emptyTree newFileTree
      = { newFiles := ["a"], removedFiles := [], modifiedFiles := [], newDirs := [],
          removedDirs := [] } :=
  diff_new_only emptyTree newFileTree "a"
    (by intro k; rfl)
    (by
      intro k hk
      have h2 : (k == "a") = false := by simpa using hk
      simp [GoMap.get?, emptyTree, newFileTree, List.lookup, h2, GoMap.empty])
    (by decide) (by decide)

end Dirreport
